import Mathlib

/-!
Verification development for the MP3toSpotify backend.

The Python sources are shallowly embedded: strings are `List Char` (wrapped
in `String` at the boundaries), Python regular-expression operations are
translated either into purpose-built scanners or into a small backtracking
regular-expression interpreter, and the external collaborators (the chardet
encoding detector, Python codec decoding, the file system, the tag reader,
and the Spotify client) are passed in as explicit oracle parameters or
modelled as input lists / effect traces.
-/

set_option maxRecDepth 10000

/-! ## Python string primitives -/

/-- Python whitespace predicate (the ASCII range of `str.isspace`, `\s`,
`str.strip` and `str.split`; the sources only ever meet ASCII whitespace). -/
def isPySpace (c : Char) : Bool :=
  c == ' ' || c == '\t' || c == '\n' || c == '\r' || c == '\x0b' || c == '\x0c'

/-- Leading-whitespace removal (left half of Python `str.strip()`). -/
def ldropWs (l : List Char) : List Char := l.dropWhile isPySpace

/-- Trailing-whitespace removal (right half of Python `str.strip()`). -/
def rdropWs (l : List Char) : List Char := (l.reverse.dropWhile isPySpace).reverse

/-- Python `str.strip()` on a character list. -/
def pyStrip (l : List Char) : List Char := rdropWs (ldropWs l)

/-- Python `str.strip()` on a `String`. -/
def pyStripStr (s : String) : String := ⟨pyStrip s.data⟩

/-- Python `str.strip(chars)`: remove leading and trailing characters drawn
from the set `chs`. -/
def stripCharSet (chs : List Char) (l : List Char) : List Char :=
  (((l.dropWhile (fun c => chs.contains c)).reverse.dropWhile
      (fun c => chs.contains c))).reverse

/-- One step of Python `str.split()` (no argument), implemented as a fold:
a whitespace character opens a new chunk, any other character is prepended
to the current chunk. -/
def wsSplitStep (c : Char) (acc : List (List Char)) : List (List Char) :=
  if isPySpace c then [] :: acc
  else
    match acc with
    | [] => [[c]]
    | w :: ws => (c :: w) :: ws

/-- Python `str.split()` without arguments: split on whitespace runs and
drop empty chunks. -/
def pyWords (l : List Char) : List (List Char) :=
  (l.foldr wsSplitStep [[]]).filter (fun w => !w.isEmpty)

/-- Join word chunks with single spaces (Python `" ".join(...)`). -/
def joinWords : List (List Char) → List Char
  | [] => []
  | [w] => w
  | w :: ws => w ++ ' ' :: joinWords ws

/-- Python `" ".join(s.split())`: whitespace normalization as used by
`parse_song_line`. -/
def wsNorm (l : List Char) : List Char := joinWords (pyWords l)

/-- Whitespace normalization on `String`s. -/
def wsNormStr (s : String) : String := ⟨wsNorm s.data⟩

/-- Drop everything up to and including the first occurrence of `cl`. -/
def dropThroughChar (cl : Char) : List Char → List Char
  | [] => []
  | c :: r => if c = cl then r else dropThroughChar cl r

theorem dropThroughChar_length_le (cl : Char) (l : List Char) :
    (dropThroughChar cl l).length ≤ l.length := by
  induction l with
  | nil => simp [dropThroughChar]
  | cons c r ih =>
    simp only [dropThroughChar]
    split
    · simp
    · exact Nat.le_succ_of_le ih

/-- Worker for `spanSub`, structurally recursive on a fuel argument so
that it also computes inside the kernel; `fuel ≥ length` is always enough
because every removed span has positive length. -/
def spanSubGo (op cl : Char) : Nat → List Char → List Char
  | 0, l => l
  | _ + 1, [] => []
  | fuel + 1, c :: r =>
    if c = op then
      if r.contains cl then spanSubGo op cl fuel (dropThroughChar cl r)
      else c :: r
    else c :: spanSubGo op cl fuel r

/-- Python `re.sub(op + "[^cl]*" + cl, "", l)` for single-character
delimiters `op`/`cl`: repeatedly delete the span from an opening character
up to and including the first following closing character.  An opening
character with no closing character after it is left in place (the regular
expression cannot match there). -/
def spanSub (op cl : Char) (l : List Char) : List Char := spanSubGo op cl l.length l

/-- `noPairB op cl l` holds when no occurrence of `op` in `l` is followed
(anywhere later in `l`) by an occurrence of `cl` — i.e. the span regular
expression has no match in `l`. -/
def noPairB (op cl : Char) : List Char → Bool
  | [] => true
  | c :: r => if c = op then !(r.contains cl) else noPairB op cl r

theorem noPairB_of_not_contains (op cl : Char) (l : List Char)
    (h : l.contains cl = false) : noPairB op cl l = true := by
  induction l with
  | nil => simp [noPairB]
  | cons c r ih =>
    simp only [List.contains_cons, Bool.or_eq_false_iff] at h
    simp only [noPairB]
    split
    · simpa [List.contains] using h.2
    · exact ih h.2

theorem noPair_spanSubGo (op cl : Char) :
    ∀ fuel (l : List Char), l.length ≤ fuel →
      noPairB op cl (spanSubGo op cl fuel l) = true := by
  intro fuel
  induction fuel with
  | zero =>
    intro l hl
    rw [Nat.le_zero, List.length_eq_zero] at hl
    subst hl
    rfl
  | succ f ih =>
    intro l hl
    cases l with
    | nil => rfl
    | cons c r =>
      simp only [List.length_cons, Nat.succ_le_succ_iff] at hl
      rw [spanSubGo]
      by_cases hc : c = op
      · rw [if_pos hc]
        by_cases hcon : r.contains cl = true
        · rw [if_pos hcon]
          exact ih (dropThroughChar cl r)
            (Nat.le_trans (dropThroughChar_length_le cl r) hl)
        · rw [if_neg hcon]
          simp only [noPairB, if_pos hc]
          simpa using hcon
      · rw [if_neg hc]
        simp only [noPairB, if_neg hc]
        exact ih r hl

theorem noPair_spanSub (op cl : Char) (l : List Char) :
    noPairB op cl (spanSub op cl l) = true :=
  noPair_spanSubGo op cl l.length l (Nat.le_refl _)

theorem spanSubGo_of_noPair (op cl : Char) :
    ∀ fuel (l : List Char), noPairB op cl l = true →
      spanSubGo op cl fuel l = l := by
  intro fuel
  induction fuel with
  | zero => intro l _; rfl
  | succ f ih =>
    intro l h
    cases l with
    | nil => rfl
    | cons c r =>
      rw [spanSubGo]
      by_cases hc : c = op
      · simp only [noPairB, if_pos hc] at h
        rw [if_pos hc, if_neg]
        simpa using h
      · simp only [noPairB, if_neg hc] at h
        rw [if_neg hc, ih r h]

theorem spanSub_of_noPair (op cl : Char) (l : List Char)
    (h : noPairB op cl l = true) : spanSub op cl l = l :=
  spanSubGo_of_noPair op cl l.length l h

theorem noPairB_cons_elim (op cl : Char) (c : Char) (l : List Char)
    (h : noPairB op cl (c :: l) = true) : noPairB op cl l = true := by
  simp only [noPairB] at h
  split at h
  · exact noPairB_of_not_contains op cl l (by simpa using h)
  · exact h

theorem noPairB_sublist (op cl : Char) {l' l : List Char}
    (hs : l'.Sublist l) (h : noPairB op cl l = true) : noPairB op cl l' = true := by
  induction hs with
  | slnil => exact h
  | cons a hsub ih => exact ih (noPairB_cons_elim op cl a _ h)
  | @cons₂ l₁ l₂ a hsub ih =>
    simp only [noPairB] at h ⊢
    by_cases hc : a = op
    · rw [if_pos hc] at h ⊢
      have hnm : cl ∉ l₂ := by simpa [List.contains, List.elem_eq_mem] using h
      have hnm' : cl ∉ l₁ := fun hcm => hnm (hsub.subset hcm)
      simpa [List.contains, List.elem_eq_mem] using hnm'
    · rw [if_neg hc] at h ⊢
      exact ih h

theorem dropThroughChar_sublist (cl : Char) (l : List Char) :
    (dropThroughChar cl l).Sublist l := by
  induction l with
  | nil => simp [dropThroughChar]
  | cons c r ih =>
    simp only [dropThroughChar]
    split
    · exact List.sublist_cons_self c r
    · exact ih.trans (List.sublist_cons_self c r)

theorem spanSubGo_sublist (op cl : Char) :
    ∀ fuel (l : List Char), (spanSubGo op cl fuel l).Sublist l := by
  intro fuel
  induction fuel with
  | zero => intro l; exact List.Sublist.refl l
  | succ f ih =>
    intro l
    cases l with
    | nil => exact List.Sublist.refl _
    | cons c r =>
      rw [spanSubGo]
      by_cases hc : c = op
      · rw [if_pos hc]
        by_cases hcon : r.contains cl = true
        · rw [if_pos hcon]
          exact ((ih (dropThroughChar cl r)).trans
            (dropThroughChar_sublist cl r)).trans (List.sublist_cons_self c r)
        · rw [if_neg hcon]
      · rw [if_neg hc]
        exact (ih r).cons₂ c

theorem spanSub_sublist (op cl : Char) (l : List Char) :
    (spanSub op cl l).Sublist l :=
  spanSubGo_sublist op cl l.length l

theorem ldropWs_sublist (l : List Char) : (ldropWs l).Sublist l :=
  List.dropWhile_sublist _

theorem rdropWs_sublist (l : List Char) : (rdropWs l).Sublist l := by
  have h := (List.dropWhile_sublist (l := l.reverse) isPySpace).reverse
  simpa [rdropWs] using h

theorem pyStrip_sublist (l : List Char) : (pyStrip l).Sublist l :=
  (rdropWs_sublist _).trans (ldropWs_sublist l)

theorem dropWhile_head_not (p : Char → Bool) (l : List Char) :
    ∀ c, (l.dropWhile p).head? = some c → p c = false := by
  induction l with
  | nil => intro c h; simp [List.dropWhile] at h
  | cons a r ih =>
    intro c h
    rw [List.dropWhile_cons] at h
    split at h
    · exact ih c h
    · next hpa =>
      simp only [List.head?_cons, Option.some.injEq] at h
      subst h
      simpa using hpa

theorem dropWhile_eq_self_of_head (p : Char → Bool) (l : List Char)
    (h : ∀ c, l.head? = some c → p c = false) : l.dropWhile p = l := by
  cases l with
  | nil => simp
  | cons a r =>
    rw [List.dropWhile_cons, if_neg]
    simp [h a rfl]

theorem exists_dropWhile_eq_drop (p : Char → Bool) (l : List Char) :
    ∃ k, l.dropWhile p = l.drop k := by
  induction l with
  | nil => exact ⟨0, rfl⟩
  | cons a r ih =>
    rw [List.dropWhile_cons]
    split
    · obtain ⟨k, hk⟩ := ih
      exact ⟨k + 1, by simpa using hk⟩
    · exact ⟨0, rfl⟩

theorem exists_rdropWs_eq_take (l : List Char) : ∃ m, rdropWs l = l.take m := by
  obtain ⟨k, hk⟩ := exists_dropWhile_eq_drop isPySpace l.reverse
  refine ⟨l.length - k, ?_⟩
  rw [rdropWs, hk, List.reverse_drop]
  simp

theorem take_head? (l : List Char) (m : Nat) (h : l.take m ≠ []) :
    (l.take m).head? = l.head? := by
  cases m with
  | zero => simp at h
  | succ m =>
    cases l with
    | nil => simp at h
    | cons a r => simp

theorem ldropWs_rdropWs_ldropWs (l : List Char) :
    ldropWs (rdropWs (ldropWs l)) = rdropWs (ldropWs l) := by
  obtain ⟨m, hm⟩ := exists_rdropWs_eq_take (ldropWs l)
  apply dropWhile_eq_self_of_head
  intro c hc
  rw [hm] at hc
  have hne : (ldropWs l).take m ≠ [] := by
    intro hnil
    rw [hnil] at hc
    simp at hc
  rw [take_head? _ m hne] at hc
  exact dropWhile_head_not isPySpace l c hc

theorem dropWhile_idem (p : Char → Bool) (l : List Char) :
    (l.dropWhile p).dropWhile p = l.dropWhile p :=
  dropWhile_eq_self_of_head p _ (dropWhile_head_not p l)

theorem rdropWs_idem (l : List Char) : rdropWs (rdropWs l) = rdropWs l := by
  simp [rdropWs, dropWhile_idem]

theorem pyStrip_idem (l : List Char) : pyStrip (pyStrip l) = pyStrip l := by
  unfold pyStrip
  rw [ldropWs_rdropWs_ldropWs l]
  have h2 := rdropWs_idem (ldropWs l)
  exact h2

/-! ## search_strategies.py : remove_brackets -/

/-- `search_strategies.remove_brackets`: strip `(...)` spans, `strip()`,
then strip `[...]` spans, `strip()` (the two `re.sub` calls of the source,
each followed by `.strip()`). -/
def remove_brackets (title : String) : String :=
  ⟨pyStrip (spanSub '[' ']' (pyStrip (spanSub '(' ')' title.data)))⟩

/-- Claim C10: bracket stripping is idempotent — applying
`remove_brackets` twice yields the same result as applying it once. -/
theorem c10_theorem (t : String) :
    remove_brackets (remove_brackets t) = remove_brackets t := by
  unfold remove_brackets
  apply congrArg String.mk
  set A := spanSub '(' ')' t.data with hA
  set B := pyStrip A with hB
  set C := spanSub '[' ']' B with hC
  set D := pyStrip C with hD
  show pyStrip (spanSub '[' ']' (pyStrip (spanSub '(' ')' D))) = D
  have hDC : D.Sublist C := hD ▸ pyStrip_sublist C
  have hCB : C.Sublist B := hC ▸ spanSub_sublist '[' ']' B
  have hBA : B.Sublist A := hB ▸ pyStrip_sublist A
  have hparen : noPairB '(' ')' D = true :=
    noPairB_sublist '(' ')' ((hDC.trans hCB).trans hBA) (hA ▸ noPair_spanSub '(' ')' t.data)
  have hbrk : noPairB '[' ']' D = true :=
    noPairB_sublist '[' ']' hDC (hC ▸ noPair_spanSub '[' ']' B)
  rw [spanSub_of_noPair _ _ _ hparen]
  rw [hD, pyStrip_idem]
  rw [← hD, spanSub_of_noPair _ _ _ hbrk]
  rw [hD, pyStrip_idem]

/-! ## search_strategies.py : parse_song_line -/

/-- The three-character separator `" - "`. -/
def sepDash : List Char := [' ', '-', ' ']

/-- Split at the first occurrence of `sep` (Python `l.split(sep, 1)`;
`none` corresponds to `sep not in l`). -/
def splitFirst (sep : List Char) : List Char → Option (List Char × List Char)
  | [] => none
  | c :: r =>
    if sep.isPrefixOf (c :: r) then some ([], (c :: r).drop sep.length)
    else
      match splitFirst sep r with
      | some (p, q) => some (c :: p, q)
      | none => none

/-- `search_strategies.parse_song_line` (`retry_failed.parse_song_line` is
byte-for-byte identical): strip the line, split on the first `" - "`,
whitespace-normalize both halves; with no separator the whole line becomes
the title and the artist is empty. -/
def parse_song_line (line : String) : String × String :=
  if (pyStrip line.data).isEmpty then ("", "")
  else
    match splitFirst sepDash (pyStrip line.data) with
    | some (p, q) => (⟨wsNorm p⟩, ⟨wsNorm q⟩)
    | none => ("", ⟨wsNorm (pyStrip line.data)⟩)

/-! ### Word-splitting lemmas for the C9 round trip -/

theorem wsSplitStep_ne_nil (c : Char) (acc : List (List Char)) :
    wsSplitStep c acc ≠ [] := by
  unfold wsSplitStep
  split
  · simp
  · cases acc <;> simp

theorem foldr_wsSplit_ne_nil (x : List Char) (acc : List (List Char))
    (h : acc ≠ []) : x.foldr wsSplitStep acc ≠ [] := by
  cases x with
  | nil => exact h
  | cons c r => exact wsSplitStep_ne_nil c _

theorem foldr_wsSplit_shift (x : List Char) (w : List Char) (ws : List (List Char)) :
    x.foldr wsSplitStep (w :: ws) = x.foldr wsSplitStep [w] ++ ws := by
  induction x with
  | nil => simp
  | cons c r ih =>
    simp only [List.foldr_cons, ih]
    cases hF : r.foldr wsSplitStep [w] with
    | nil => exact absurd hF (foldr_wsSplit_ne_nil r [w] (by simp))
    | cons h t =>
      unfold wsSplitStep
      split
      · simp
      · simp

theorem pyWords_append_space (x y : List Char) :
    pyWords (x ++ ' ' :: y) = pyWords x ++ pyWords y := by
  unfold pyWords
  rw [List.foldr_append]
  have h1 : List.foldr wsSplitStep [[]] (' ' :: y) =
      [] :: List.foldr wsSplitStep [[]] y := by
    simp only [List.foldr_cons]
    unfold wsSplitStep
    rw [if_pos (by decide : isPySpace ' ' = true)]
  rw [h1, foldr_wsSplit_shift x [] (List.foldr wsSplitStep [[]] y), List.filter_append]

theorem joinWords_cons_cons (w x : List Char) (xs : List (List Char)) :
    joinWords (w :: x :: xs) = w ++ ' ' :: joinWords (x :: xs) := rfl

theorem joinWords_append (B : List (List Char)) (hB : B ≠ []) :
    ∀ A : List (List Char), A ≠ [] →
      joinWords (A ++ B) = joinWords A ++ ' ' :: joinWords B := by
  intro A
  induction A with
  | nil => intro h; cases h rfl
  | cons w A' ih =>
    intro _
    cases A' with
    | nil =>
      cases B with
      | nil => cases hB rfl
      | cons b bs => simp [joinWords_cons_cons, joinWords]
    | cons w' A'' =>
      have h' := ih (by simp)
      simp only [List.cons_append]
      rw [joinWords_cons_cons w w' (A'' ++ B), joinWords_cons_cons w w' A'']
      have h'' : joinWords (w' :: (A'' ++ B)) =
          joinWords (w' :: A'') ++ ' ' :: joinWords B := by
        simpa only [List.cons_append] using h'
      rw [h'']
      simp

theorem pyWords_cons_sp (c : Char) (z : List Char) (hc : isPySpace c = true) :
    pyWords (c :: z) = pyWords z := by
  unfold pyWords
  simp only [List.foldr_cons]
  unfold wsSplitStep
  rw [if_pos hc]
  simp [List.filter_cons]

theorem pyWords_sp_lead : ∀ P : List Char, (∀ c ∈ P, isPySpace c = true) →
    ∀ x, pyWords (P ++ x) = pyWords x := by
  intro P
  induction P with
  | nil => intro _ x; simp
  | cons c P' ih =>
    intro hP x
    rw [List.cons_append, pyWords_cons_sp c _ (hP c (List.mem_cons_self c P'))]
    exact ih (fun d hd => hP d (List.mem_cons_of_mem c hd)) x

theorem pyWords_append_sp_single (x : List Char) (c : Char)
    (hc : isPySpace c = true) : pyWords (x ++ [c]) = pyWords x := by
  unfold pyWords
  rw [List.foldr_append]
  have h1 : List.foldr wsSplitStep [[]] [c] = [] :: [[]] := by
    simp only [List.foldr_cons, List.foldr_nil]
    unfold wsSplitStep
    rw [if_pos hc]
  rw [h1, foldr_wsSplit_shift x [] [[]], List.filter_append]
  simp

theorem pyWords_sp_suffix : ∀ S : List Char, (∀ c ∈ S, isPySpace c = true) →
    ∀ x, pyWords (x ++ S) = pyWords x := by
  intro S
  induction S with
  | nil => intro _ x; simp
  | cons c S' ih =>
    intro hS x
    have h1 : x ++ c :: S' = (x ++ [c]) ++ S' := by simp
    rw [h1, ih (fun d hd => hS d (List.mem_cons_of_mem c hd)) (x ++ [c])]
    exact pyWords_append_sp_single x c (hS c (List.mem_cons_self c S'))

theorem pyWords_eq_nil_of_all_sp : ∀ l : List Char,
    (∀ c ∈ l, isPySpace c = true) → pyWords l = [] := by
  intro l
  induction l with
  | nil => intro _; rfl
  | cons c r ih =>
    intro h
    rw [pyWords_cons_sp c r (h c (List.mem_cons_self c r))]
    exact ih (fun d hd => h d (List.mem_cons_of_mem c hd))

theorem exists_nonsp_of_pyWords_ne_nil (l : List Char) (h : pyWords l ≠ []) :
    ∃ c ∈ l, isPySpace c = false := by
  by_contra hno
  push_neg at hno
  exact h (pyWords_eq_nil_of_all_sp l (fun c hc => by
    have := hno c hc
    simpa using this))

/-! ### Strip lemmas for the C9 round trip -/

theorem ldropWs_append : ∀ x y : List Char, (∃ c ∈ x, isPySpace c = false) →
    ldropWs (x ++ y) = ldropWs x ++ y := by
  intro x
  induction x with
  | nil =>
    intro y hx
    obtain ⟨c, hc, _⟩ := hx
    simp at hc
  | cons a r ih =>
    intro y hx
    by_cases ha : isPySpace a = true
    · have hx' : ∃ c ∈ r, isPySpace c = false := by
        obtain ⟨c, hc, hcs⟩ := hx
        rcases List.mem_cons.mp hc with h | h
        · rw [h, ha] at hcs; cases hcs
        · exact ⟨c, h, hcs⟩
      simp only [List.cons_append, ldropWs, List.dropWhile_cons, if_pos ha]
      exact ih y hx'
    · simp only [List.cons_append, ldropWs, List.dropWhile_cons, if_neg ha]

theorem rdropWs_append (x y : List Char) (hy : ∃ c ∈ y, isPySpace c = false) :
    rdropWs (x ++ y) = x ++ rdropWs y := by
  obtain ⟨c, hc, hcs⟩ := hy
  have h := ldropWs_append y.reverse x.reverse ⟨c, List.mem_reverse.mpr hc, hcs⟩
  unfold rdropWs
  rw [List.reverse_append]
  unfold ldropWs at h
  rw [h, List.reverse_append, List.reverse_reverse]

theorem rdropWs_decomp (t : List Char) :
    t = rdropWs t ++ (t.reverse.takeWhile isPySpace).reverse := by
  conv_lhs => rw [← t.reverse_reverse,
    ← List.takeWhile_append_dropWhile isPySpace t.reverse]
  rw [List.reverse_append]
  rfl

/-! ### splitFirst lemmas for the C9 round trip -/

theorem isPrefixOf_append_self (s y : List Char) : s.isPrefixOf (s ++ y) = true := by
  induction s with
  | nil => simp [List.isPrefixOf]
  | cons a r ih => simp [List.isPrefixOf, ih]

theorem isPrefixOf_append_of (s : List Char) :
    ∀ x y : List Char, s.isPrefixOf x = true → s.isPrefixOf (x ++ y) = true := by
  induction s with
  | nil => intro x y _; simp [List.isPrefixOf]
  | cons a r ih =>
    intro x y h
    cases x with
    | nil => simp [List.isPrefixOf] at h
    | cons b xs =>
      simp only [List.isPrefixOf, Bool.and_eq_true] at h
      simp only [List.cons_append, List.isPrefixOf, Bool.and_eq_true]
      exact ⟨h.1, ih xs y h.2⟩

theorem lt_length_of_isPrefixOf_drop (s l : List Char) (i : Nat) (hs : s ≠ [])
    (h : s.isPrefixOf (l.drop i) = true) : i < l.length := by
  by_contra hge
  push_neg at hge
  rw [List.drop_eq_nil_of_le hge] at h
  cases s with
  | nil => exact hs rfl
  | cons a r => simp [List.isPrefixOf] at h

theorem splitFirst_sep_self (sep post : List Char) (hsep : sep ≠ []) :
    splitFirst sep (sep ++ post) = some ([], post) := by
  cases sep with
  | nil => cases hsep rfl
  | cons s0 s' =>
    rw [List.cons_append, splitFirst]
    rw [if_pos (by
      rw [← List.cons_append]
      exact isPrefixOf_append_self (s0 :: s') post)]
    rw [← List.cons_append, List.drop_left]

theorem splitFirst_spec (sep : List Char) (hsep : sep ≠ []) :
    ∀ pre post : List Char,
      (∀ i, sep.isPrefixOf ((pre ++ sep ++ post).drop i) = true → i = pre.length) →
      splitFirst sep (pre ++ sep ++ post) = some (pre, post) := by
  intro pre
  induction pre with
  | nil =>
    intro post _
    rw [List.nil_append]
    exact splitFirst_sep_self sep post hsep
  | cons c pre' ih =>
    intro post h
    have hnot : ¬ sep.isPrefixOf (c :: (pre' ++ (sep ++ post))) = true := by
      intro hpre
      have h0 := h 0 (by simpa using hpre)
      simp at h0
    have htail : ∀ i, sep.isPrefixOf ((pre' ++ sep ++ post).drop i) = true →
        i = pre'.length := by
      intro i hi
      have h1 := h (i + 1) (by
        simp only [List.cons_append, List.drop_succ_cons]
        simpa using hi)
      simpa using h1
    simp only [List.cons_append, List.append_assoc] at *
    rw [splitFirst, if_neg hnot]
    have ih' := ih post htail
    simp only [List.append_assoc] at ih'
    rw [ih']

/-! ### The C9 core argument on character lists -/

theorem parse_roundtrip_core (a0 t0 : List Char)
    (hwa : pyWords a0 ≠ []) (hwt : pyWords t0 ≠ [])
    (huniq : ∀ i, sepDash.isPrefixOf ((a0 ++ sepDash ++ t0).drop i) = true →
      i = a0.length) :
    (pyStrip (a0 ++ sepDash ++ t0)).isEmpty = false ∧
    splitFirst sepDash (pyStrip (a0 ++ sepDash ++ t0)) =
      some (ldropWs a0, rdropWs t0) ∧
    wsNorm (ldropWs a0) = wsNorm a0 ∧ wsNorm (rdropWs t0) = wsNorm t0 ∧
    wsNorm a0 ++ sepDash ++ wsNorm t0 = wsNorm (a0 ++ sepDash ++ t0) := by
  obtain ⟨ca, hca_mem, hca⟩ := exists_nonsp_of_pyWords_ne_nil a0 hwa
  obtain ⟨ct, hct_mem, hct⟩ := exists_nonsp_of_pyWords_ne_nil t0 hwt
  have hsepne : sepDash ≠ ([] : List Char) := by simp [sepDash]
  have hstrip : pyStrip (a0 ++ sepDash ++ t0) =
      ldropWs a0 ++ sepDash ++ rdropWs t0 := by
    have h1 := ldropWs_append a0 (sepDash ++ t0) ⟨ca, hca_mem, hca⟩
    have h2 := rdropWs_append (ldropWs a0 ++ [' ', '-']) (' ' :: t0)
      ⟨ct, List.mem_cons_of_mem ' ' hct_mem, hct⟩
    have h3 := rdropWs_append [' '] t0 ⟨ct, hct_mem, hct⟩
    unfold pyStrip
    rw [List.append_assoc, h1]
    have e : ldropWs a0 ++ (sepDash ++ t0) =
        (ldropWs a0 ++ [' ', '-']) ++ (' ' :: t0) := by
      simp [sepDash]
    rw [e, h2]
    have e2 : rdropWs (' ' :: t0) = [' '] ++ rdropWs t0 := by
      simpa using h3
    rw [e2]
    simp [sepDash]
  have hdec_a : a0 = a0.takeWhile isPySpace ++ ldropWs a0 :=
    (List.takeWhile_append_dropWhile isPySpace a0).symm
  have hdec_t : t0 = rdropWs t0 ++ (t0.reverse.takeWhile isPySpace).reverse :=
    rdropWs_decomp t0
  have hlenA : a0.length = (a0.takeWhile isPySpace).length + (ldropWs a0).length := by
    conv_lhs => rw [hdec_a]
    simp [List.length_append]
  have htrans : ∀ i,
      sepDash.isPrefixOf ((ldropWs a0 ++ sepDash ++ rdropWs t0).drop i) = true →
      i = (ldropWs a0).length := by
    intro i hi
    have hilt := lt_length_of_isPrefixOf_drop sepDash
      (ldropWs a0 ++ sepDash ++ rdropWs t0) i hsepne hi
    have h1 : sepDash.isPrefixOf
        (((ldropWs a0 ++ sepDash ++ rdropWs t0) ++
          (t0.reverse.takeWhile isPySpace).reverse).drop i) = true := by
      rw [List.drop_append_of_le_length (Nat.le_of_lt hilt)]
      exact isPrefixOf_append_of sepDash _ _ hi
    have h2 : a0 ++ sepDash ++ t0 = a0.takeWhile isPySpace ++
        ((ldropWs a0 ++ sepDash ++ rdropWs t0) ++
          (t0.reverse.takeWhile isPySpace).reverse) := by
      conv_lhs => rw [hdec_a, hdec_t]
      simp [List.append_assoc]
    have h3 : sepDash.isPrefixOf
        ((a0 ++ sepDash ++ t0).drop ((a0.takeWhile isPySpace).length + i)) = true := by
      rw [h2, List.drop_append]
      exact h1
    have h5 := huniq ((a0.takeWhile isPySpace).length + i) h3
    omega
  have hsplit : splitFirst sepDash (ldropWs a0 ++ sepDash ++ rdropWs t0) =
      some (ldropWs a0, rdropWs t0) :=
    splitFirst_spec sepDash hsepne (ldropWs a0) (rdropWs t0) htrans
  refine ⟨?_, ?_, ?_, ?_, ?_⟩
  · rw [hstrip]
    simp [sepDash]
  · rw [hstrip]
    exact hsplit
  · conv_rhs => rw [hdec_a]
    unfold wsNorm
    rw [pyWords_sp_lead (a0.takeWhile isPySpace)
      (fun c hc => List.mem_takeWhile_imp hc) (ldropWs a0)]
  · conv_rhs => rw [hdec_t]
    unfold wsNorm
    rw [pyWords_sp_suffix ((t0.reverse.takeWhile isPySpace).reverse)
      (fun c hc => List.mem_takeWhile_imp (List.mem_reverse.mp hc)) (rdropWs t0)]
  · have e : a0 ++ sepDash ++ t0 = a0 ++ ' ' :: ('-' :: ' ' :: t0) := by
      simp [sepDash]
    have h1 := pyWords_append_space a0 ('-' :: ' ' :: t0)
    have h2 : pyWords ('-' :: ' ' :: t0) = pyWords ['-'] ++ pyWords t0 := by
      simpa using pyWords_append_space ['-'] t0
    have h3 : pyWords ['-'] = [['-']] := by decide
    unfold wsNorm
    rw [e, h1, h2, h3]
    rw [joinWords_append ([['-']] ++ pyWords t0) (by simp) (pyWords a0) hwa]
    rw [joinWords_append (pyWords t0) hwt [['-']] (by simp)]
    simp [sepDash, joinWords]

/-- Claim C9: for a line `artist ++ " - " ++ title` in which the
three-character separator `" - "` occurs exactly once (its only match
position is the join point) and both sides are non-empty after whitespace
normalization, `parse_song_line` returns the whitespace-normalized artist
and title, and rejoining them with `" - "` equals the
whitespace-normalized input line (round trip). -/
theorem c9_theorem (a t : String)
    (ha : wsNormStr a ≠ "") (ht : wsNormStr t ≠ "")
    (huniq : ∀ i < (a ++ " - " ++ t).data.length,
      sepDash.isPrefixOf ((a ++ " - " ++ t).data.drop i) = true →
      i = a.data.length) :
    parse_song_line (a ++ " - " ++ t) = (wsNormStr a, wsNormStr t) ∧
    wsNormStr a ++ " - " ++ wsNormStr t = wsNormStr (a ++ " - " ++ t) := by
  have hdata : (a ++ " - " ++ t).data = a.data ++ sepDash ++ t.data := by
    simp only [String.data_append]
    rfl
  have hwa : pyWords a.data ≠ [] := by
    intro hnil
    apply ha
    apply String.ext
    show wsNorm a.data = ("" : String).data
    rw [wsNorm, hnil]
    rfl
  have hwt : pyWords t.data ≠ [] := by
    intro hnil
    apply ht
    apply String.ext
    show wsNorm t.data = ("" : String).data
    rw [wsNorm, hnil]
    rfl
  have huniq' : ∀ i, sepDash.isPrefixOf ((a.data ++ sepDash ++ t.data).drop i) = true →
      i = a.data.length := by
    intro i hi
    have hne : sepDash ≠ ([] : List Char) := by simp [sepDash]
    have hlt := lt_length_of_isPrefixOf_drop sepDash _ i hne hi
    exact huniq i (by rw [hdata]; exact hlt) (by rw [hdata]; exact hi)
  obtain ⟨hempty, hsplit, hga, hgt, hrt⟩ :=
    parse_roundtrip_core a.data t.data hwa hwt huniq'
  constructor
  · unfold parse_song_line
    rw [hdata]
    rw [if_neg (by rw [hempty]; simp)]
    rw [hsplit]
    have e1 : wsNormStr a = ⟨wsNorm (ldropWs a.data)⟩ := by
      apply String.ext
      show wsNorm a.data = wsNorm (ldropWs a.data)
      exact hga.symm
    have e2 : wsNormStr t = ⟨wsNorm (rdropWs t.data)⟩ := by
      apply String.ext
      show wsNorm t.data = wsNorm (rdropWs t.data)
      exact hgt.symm
    rw [e1, e2]
  · apply String.ext
    show wsNorm a.data ++ sepDash ++ wsNorm t.data = (wsNormStr (a ++ " - " ++ t)).data
    have : (wsNormStr (a ++ " - " ++ t)).data = wsNorm ((a ++ " - " ++ t).data) := rfl
    rw [this, hdata]
    exact hrt

/-! ## A small backtracking regular-expression interpreter -/

/-- Abstract syntax for the tiny fragment of Python regular expressions
used by the sources: character classes, sequencing, prioritized
alternation, greedy option and star, word boundary, end of string. -/
inductive RE where
  | eps : RE
  | cls : (Char → Bool) → RE
  | seq : RE → RE → RE
  | alt : RE → RE → RE
  | opt : RE → RE
  | star : RE → RE
  | wb : RE
  | eos : RE

/-- Python `\w` (the sources only meet ASCII word characters). -/
def isWordChar (c : Char) : Bool := c.isAlphanum || c == '_'

def isWordOpt : Option Char → Bool
  | none => false
  | some c => isWordChar c

/-- Python `\b`: the previous and next character disagree on
word-character-ness (the ends of the string count as non-word). -/
def isWordBoundary (prev : Option Char) (l : List Char) : Bool :=
  isWordOpt prev != isWordOpt l.head?

/-- All ways `r` can match a prefix of `l`, in Python backtracking
priority order (greedy, left alternative first).  Each outcome carries the
last consumed character (for later word-boundary tests) and the remaining
input; `prev` is the character just before `l`.  `fuel` bounds star
unfolding; every starred sub-pattern below consumes at least one character
per iteration, so `l.length + 1` fuel is always enough. -/
def reRunsCore
    (starH : RE → Option Char → List Char → List (Option Char × List Char)) :
    RE → Option Char → List Char → List (Option Char × List Char)
  | RE.eps, prev, l => [(prev, l)]
  | RE.cls p, _, l =>
    match l with
    | [] => []
    | c :: rest => if p c then [(some c, rest)] else []
  | RE.seq a b, prev, l =>
    (reRunsCore starH a prev l).flatMap (fun pr => reRunsCore starH b pr.1 pr.2)
  | RE.alt a b, prev, l => reRunsCore starH a prev l ++ reRunsCore starH b prev l
  | RE.opt a, prev, l => reRunsCore starH a prev l ++ [(prev, l)]
  | RE.star a, prev, l => starH a prev l
  | RE.wb, prev, l => if isWordBoundary prev l then [(prev, l)] else []
  | RE.eos, prev, l => if l.isEmpty then [(prev, l)] else []

/-- Greedy star: one body match (consuming at least one character) then
the star again, in priority order, with the empty match last. -/
def reRunsStar : Nat → RE → Option Char → List Char → List (Option Char × List Char)
  | 0, _, prev, l => [(prev, l)]
  | fuel + 1, a, prev, l =>
    ((reRunsCore (reRunsStar fuel) a prev l).flatMap (fun pr =>
      if pr.2.length < l.length then reRunsStar fuel a pr.1 pr.2 else [])) ++
    [(prev, l)]

def reRuns (fuel : Nat) (r : RE) (prev : Option Char) (l : List Char) :
    List (Option Char × List Char) :=
  reRunsCore (reRunsStar fuel) r prev l

/-- Remove every (leftmost, non-overlapping) match of `r` from the input
(Python `re.sub(r, "", ...)`): scan left to right, take the highest
priority match at the first position that has one, and continue after it
with the word-boundary context of the original text. -/
def reSubGo (r : RE) : Nat → Option Char → List Char → List Char
  | 0, _, l => l
  | fuel + 1, prev, l =>
    match (reRuns (l.length + 1) r prev l).head? with
    | some pr =>
      if pr.2.length < l.length then reSubGo r fuel pr.1 pr.2
      else
        match l with
        | [] => []
        | c :: rest => c :: reSubGo r fuel (some c) rest
    | none =>
      match l with
      | [] => []
      | c :: rest => c :: reSubGo r fuel (some c) rest

def reSubAll (r : RE) (l : List Char) : List Char := reSubGo r (l.length + 1) none l

/-- Does `r` match anywhere in `l` (Python `re.search`)? -/
def reHasMatchGo (r : RE) : Option Char → List Char → Bool
  | prev, [] => !(reRuns 1 r prev []).isEmpty
  | prev, c :: rest =>
    !(reRuns ((c :: rest).length + 1) r prev (c :: rest)).isEmpty ||
    reHasMatchGo r (some c) rest

def reHasMatch (r : RE) (l : List Char) : Bool := reHasMatchGo r none l

/-- Substitute a start-anchored pattern once
(Python `re.sub("^...", "", l)`). -/
def reSubStart (r : RE) (l : List Char) : List Char :=
  match (reRuns (l.length + 1) r none l).head? with
  | some pr => pr.2
  | none => l

/-- Case-insensitive single character (`re.IGNORECASE`). -/
def ciChar (c : Char) : RE := RE.cls (fun d => d.toLower == c.toLower)

/-- Exact single character. -/
def exChar (c : Char) : RE := RE.cls (fun d => d == c)

/-- Case-insensitive literal string. -/
def ciStr (s : String) : RE := s.data.foldr (fun c r => RE.seq (ciChar c) r) RE.eps

/-- Sequence a list of patterns. -/
def reCat (rs : List RE) : RE := rs.foldr RE.seq RE.eps

/-- `\s*`. -/
def wsStar : RE := RE.star (RE.cls isPySpace)

/-- `.` (the sources never meet newlines). -/
def anyChar : RE := RE.cls (fun _ => true)

/-! ## search_strategies.py / youtube_import.py : feat stripping -/

/-- The gate `re.search(r"feat\.?|ft\.?", title, re.IGNORECASE)`. -/
def featGatePat : RE :=
  RE.alt (reCat [ciStr "feat", RE.opt (exChar '.')])
         (reCat [ciStr "ft", RE.opt (exChar '.')])

/-- The removal pattern `[\(\[]?\s*(?:feat|ft)\.?\s*[^\)\]]*[\)\]]?`
(case-insensitive). -/
def featPat : RE :=
  reCat [RE.opt (RE.cls (fun c => c == '(' || c == '[')), wsStar,
         RE.alt (ciStr "feat") (ciStr "ft"), RE.opt (exChar '.'), wsStar,
         RE.star (RE.cls (fun c => !(c == ')' || c == ']'))),
         RE.opt (RE.cls (fun c => c == ')' || c == ']'))]

/-- `re.sub(featPat, "", title).strip()`, shared text of
`search_strategies.remove_feat` and the feat block of
`youtube_import.build_youtube_search_queries`. -/
def noFeatTitle (title : String) : String := pyStripStr ⟨reSubAll featPat title.data⟩

/-- `search_strategies.remove_feat`: `None` when no feat/ft pattern
occurs, or when the stripped result is empty or unchanged. -/
def remove_feat (title : String) : Option String :=
  if reHasMatch featGatePat title.data then
    if noFeatTitle title ≠ "" ∧ noFeatTitle title ≠ title then
      some (noFeatTitle title)
    else none
  else none

/-! ## shared channel cleanup -/

/-- `re.sub(r"\s*[-–]?\s*(Topic|VEVO|Official).*$", "", channel,
re.IGNORECASE)` as used by both query builders' channel fallback. -/
def chanNoisePat : RE :=
  reCat [wsStar, RE.opt (RE.cls (fun c => c == '-' || c == '–')), wsStar,
         RE.alt (ciStr "Topic") (RE.alt (ciStr "VEVO") (ciStr "Official")),
         RE.star anyChar, RE.eos]

def cleanChannel (channel : String) : String :=
  pyStripStr ⟨reSubAll chanNoisePat channel.data⟩

/-! ## search_strategies.py : build_search_queries -/

/-- Lines 80–95 of `search_strategies.build_search_queries`: the exact
structured/free-text block, the title-only query, and the channel
fallback block. -/
def baseQueries (artist title channel : String) : List String :=
  (if artist ≠ "" ∧ title ≠ "" then
    ["track:" ++ title ++ " artist:" ++ artist, artist ++ " " ++ title]
  else []) ++
  (if title ≠ "" then ["track:" ++ title] else []) ++
  (if channel ≠ "" ∧ artist = "" then
    (if cleanChannel channel ≠ "" then
      ["track:" ++ title ++ " artist:" ++ cleanChannel channel,
       cleanChannel channel ++ " " ++ title]
    else [])
  else [])

/-- Lines 97–104 of `search_strategies.build_search_queries`: the
bracket-stripped block. -/
def bracketQueries (artist title : String) : List String :=
  if remove_brackets title ≠ "" ∧ remove_brackets title ≠ title then
    (if artist ≠ "" then
      ["track:" ++ remove_brackets title ++ " artist:" ++ artist] else []) ++
    [if artist ≠ "" then artist ++ " " ++ remove_brackets title
     else "track:" ++ remove_brackets title]
  else []

/-- Lines 106–113 of `search_strategies.build_search_queries`: the
feat-stripped block (skipped when equal to the bracket-stripped title). -/
def featQueries (artist title : String) : List String :=
  match remove_feat title with
  | some nf =>
    if nf ≠ remove_brackets title then
      (if artist ≠ "" then ["track:" ++ nf ++ " artist:" ++ artist] else []) ++
      [if artist ≠ "" then artist ++ " " ++ nf else "track:" ++ nf]
    else []
  | none => []

/-- `search_strategies.build_search_queries`: sequential appends in source
order — exact structured search, free text, title-only, channel fallback,
bracket-stripped variants, then feat-stripped variants. -/
def build_search_queries (artist title channel : String) : List String :=
  (if artist ≠ "" ∧ title ≠ "" then
    ["track:" ++ title ++ " artist:" ++ artist, artist ++ " " ++ title]
  else []) ++
  (if title ≠ "" then ["track:" ++ title] else []) ++
  (if channel ≠ "" ∧ artist = "" then
    (if cleanChannel channel ≠ "" then
      ["track:" ++ title ++ " artist:" ++ cleanChannel channel,
       cleanChannel channel ++ " " ++ title]
    else [])
  else []) ++
  (if remove_brackets title ≠ "" ∧ remove_brackets title ≠ title then
    (if artist ≠ "" then
      ["track:" ++ remove_brackets title ++ " artist:" ++ artist] else []) ++
    [if artist ≠ "" then artist ++ " " ++ remove_brackets title
     else "track:" ++ remove_brackets title]
  else []) ++
  (match remove_feat title with
   | some nf =>
     if nf ≠ remove_brackets title then
       (if artist ≠ "" then ["track:" ++ nf ++ " artist:" ++ artist] else []) ++
       [if artist ≠ "" then artist ++ " " ++ nf else "track:" ++ nf]
     else []
   | none => [])

/-- `youtube_import.build_youtube_search_queries`: same first three
blocks, but the feat-stripped block comes BEFORE the bracket-stripped
block, the feat condition does not compare against the bracket-stripped
title, and the fallback variants are `track:`-only. -/
def build_youtube_search_queries (artist title channel : String) : List String :=
  (if artist ≠ "" ∧ title ≠ "" then
    ["track:" ++ title ++ " artist:" ++ artist, artist ++ " " ++ title]
  else []) ++
  (if title ≠ "" then ["track:" ++ title] else []) ++
  (if channel ≠ "" ∧ artist = "" then
    (if cleanChannel channel ≠ "" then
      ["track:" ++ title ++ " artist:" ++ cleanChannel channel,
       cleanChannel channel ++ " " ++ title]
    else [])
  else []) ++
  (if reHasMatch featGatePat title.data then
    (if noFeatTitle title ≠ "" ∧ noFeatTitle title ≠ title then
      (if artist ≠ "" then
        ["track:" ++ noFeatTitle title ++ " artist:" ++ artist] else []) ++
      ["track:" ++ noFeatTitle title]
    else [])
  else []) ++
  (if remove_brackets title ≠ "" ∧ remove_brackets title ≠ title then
    (if artist ≠ "" then
      ["track:" ++ remove_brackets title ++ " artist:" ++ artist] else []) ++
    ["track:" ++ remove_brackets title]
  else [])

/-! ## encoding_utils.py : fix_mojibake -/

/-- Python `text.encode("latin-1")`: the raw byte values; it succeeds
exactly when every character is in the single-byte range 0x00–0xFF. -/
def latin1Bytes (text : String) : List Nat := text.data.map Char.toNat

/-- The encoding chosen from a chardet detection result
(`detection.get("encoding")` and `detection.get("confidence", 0.0)`):
fall back to `"cp949"` when the detector returns no name, an empty
(falsy) name, or confidence below 0.7. -/
def chosenEncoding (detected : Option String × ℚ) : String :=
  match detected.1 with
  | none => "cp949"
  | some e => if e = "" ∨ detected.2 < 7/10 then "cp949" else e

/-- `encoding_utils.fix_mojibake`.  The external collaborators are
oracles: `detect` models `chardet.detect` on the latin-1 bytes and
`dec e b` models `bytes(b).decode(e)`, with `none` for
`UnicodeDecodeError`/`LookupError`.  The structure mirrors the source:
empty text and the literal "None" pass through; any character above 0xFF
makes `encode("latin-1")` raise `UnicodeEncodeError`, returning the text
unchanged; otherwise decode with the chosen encoding, retry with the
fixed fallback `"cp949"` on failure, and finally return the original
text unchanged. -/
def fix_mojibake (detect : List Nat → Option String × ℚ)
    (dec : String → List Nat → Option String) (text : String) : String :=
  if text = "" ∨ text = "None" then text
  else if text.data.any (fun c => 255 < c.toNat) then text
  else
    match dec (chosenEncoding (detect (latin1Bytes text))) (latin1Bytes text) with
    | some s => s
    | none =>
      match dec "cp949" (latin1Bytes text) with
      | some s => s
      | none => text

/-- A detector oracle that reports nothing (used as concrete witness). -/
def noDetect : List Nat → Option String × ℚ := fun _ => (none, 0)

/-- A decoder oracle on which every decode fails (used as concrete
witness; `fix_mojibake` then always falls back to the original text). -/
def noDecode : String → List Nat → Option String := fun _ _ => none

/-! ## youtube_import.py : clean_youtube_title -/

/-- The `noise_patterns` list of `clean_youtube_title`, in source order
(all applied case-insensitively by `re.sub`). -/
def noisePatterns : List RE :=
  [reCat [exChar '(', ciStr "Official", wsStar,
      RE.opt (reCat [ciStr "Music", wsStar]), ciStr "Video", exChar ')'],
   reCat [exChar '(', ciStr "Official", wsStar, ciStr "Audio", exChar ')'],
   reCat [exChar '(', ciStr "Official", wsStar, ciStr "Lyric", wsStar,
      ciStr "Video", exChar ')'],
   reCat [exChar '(', ciStr "Lyric", RE.opt (ciChar 's'), exChar ')'],
   reCat [exChar '(', ciStr "Visuali", RE.alt (ciChar 's') (ciChar 'z'),
      ciStr "er", exChar ')'],
   reCat [exChar '(', ciStr "Audio", exChar ')'],
   reCat [exChar '(', ciStr "MV", exChar ')'],
   reCat [exChar '[', ciStr "MV", exChar ']'],
   reCat [exChar '[', ciStr "Official", wsStar,
      RE.opt (reCat [ciStr "Music", wsStar]), ciStr "Video", exChar ']'],
   reCat [exChar '[', ciStr "Official", wsStar, ciStr "Audio", exChar ']'],
   reCat [exChar '[', ciStr "Lyric", RE.opt (ciChar 's'), exChar ']'],
   reCat [RE.wb, ciChar 'M', RE.opt (exChar '/'), ciChar 'V', RE.wb],
   reCat [RE.wb, ciStr "HD", RE.wb],
   reCat [RE.wb, ciStr "4K", RE.wb],
   reCat [RE.wb, ciStr "lyric", RE.opt (ciChar 's'), RE.wb],
   reCat [RE.wb, ciStr "official", wsStar,
      RE.opt (reCat [ciStr "music", wsStar]), ciStr "video", RE.wb],
   reCat [RE.wb, ciStr "official", wsStar, ciStr "audio", RE.wb]]

/-- Python `re.sub(r"\s+", " ", title)`: collapse each whitespace run to
a single space. -/
def collapseWsGo : Bool → List Char → List Char
  | _, [] => []
  | inWs, c :: r =>
    if isPySpace c then
      if inWs then collapseWsGo true r else ' ' :: collapseWsGo true r
    else c :: collapseWsGo false r

def collapseWs (l : List Char) : List Char := collapseWsGo false l

/-- The punctuation characters of `title.strip("-–—|·•/\\")`. -/
def junkChars : List Char := ['-', '–', '—', '|', '·', '•', '/', '\\']

/-- The extended separator list tried by `clean_youtube_title`. -/
def ytSeparators : List (List Char) :=
  [[' ', '-', ' '], [' ', '–', ' '], [' ', '—', ' '], [' ', '|', ' '],
   [' ', '/', '/', ' ']]

/-- The `for sep in separators` loop of `clean_youtube_title`: accept the
first listed separator that occurs and whose split has both sides
non-empty after stripping; a separator that occurs but fails the
non-empty check falls through to the next separator. -/
def trySeps (title : List Char) : List (List Char) → Option (String × String)
  | [] => none
  | sep :: rest =>
    match splitFirst sep title with
    | some pq =>
      if ¬ (pyStrip pq.1).isEmpty ∧ ¬ (pyStrip pq.2).isEmpty then
        some (⟨pyStrip pq.1⟩, ⟨pyStrip pq.2⟩)
      else trySeps title rest
    | none => trySeps title rest

/-- The pure tail of `youtube_import.clean_youtube_title` after the
mojibake repair: apply the noise patterns in order, collapse whitespace,
strip, strip junk punctuation, strip again, then try the extended
separator split; with no accepted split the artist is empty and the
cleaned string is the title. -/
def clean_youtube_title_core (t : List Char) : String × String :=
  let t3 := pyStrip (stripCharSet junkChars
    (pyStrip (collapseWs (noisePatterns.foldl (fun acc p => reSubAll p acc) t))))
  match trySeps t3 ytSeparators with
  | some p => p
  | none => ("", ⟨t3⟩)

/-- `youtube_import.clean_youtube_title`; the leading `fix_mojibake` call
carries its external-oracle parameters. -/
def clean_youtube_title (detect : List Nat → Option String × ℚ)
    (dec : String → List Nat → Option String) (title : String) : String × String :=
  clean_youtube_title_core (fix_mojibake detect dec title).data

/-! ## Claim C2 -/

/-- Claim C2 (amended): in `search_strategies.build_search_queries` the
query list decomposes as base queries, then all bracket-stripped
variants, then all feat-stripped variants — so every bracket-stripped
variant precedes every feat-stripped variant there; and for artist="",
title="Unknown Song (Live)", channel="" both builders produce exactly the
title-only query followed by the bracket-stripped title-only query, with
no applicable feat-stripped variant.  (In
`build_youtube_search_queries` the block order is reversed in general;
see the counterexample.) -/
theorem c2_theorem :
    (∀ artist title channel : String,
      build_search_queries artist title channel =
        baseQueries artist title channel ++ bracketQueries artist title ++
          featQueries artist title) ∧
    build_search_queries "" "Unknown Song (Live)" "" =
      ["track:Unknown Song (Live)", "track:Unknown Song"] ∧
    featQueries "" "Unknown Song (Live)" = [] ∧
    build_youtube_search_queries "" "Unknown Song (Live)" "" =
      ["track:Unknown Song (Live)", "track:Unknown Song"] := by
  refine ⟨?_, ?_, ?_, ?_⟩
  · intro artist title channel
    unfold build_search_queries baseQueries bracketQueries featQueries
    simp [List.append_assoc]
  · decide
  · decide
  · decide

/-- Claim C2 counterexample: in `youtube_import.build_youtube_search_queries`
the feat-stripped variants precede the bracket-stripped variants — for
artist="A", title="Song feat. X (Live)" the feat-stripped query
"track:Song" appears at an earlier index than the bracket-stripped query
"track:Song feat. X", refuting the claim that every bracket-stripped
variant appears before every feat-stripped variant in the query builders. -/
theorem c2_counterexample :
    build_youtube_search_queries "A" "Song feat. X (Live)" "" =
      ["track:Song feat. X (Live) artist:A", "A Song feat. X (Live)",
       "track:Song feat. X (Live)", "track:Song artist:A", "track:Song",
       "track:Song feat. X artist:A", "track:Song feat. X"] ∧
    (build_youtube_search_queries "A" "Song feat. X (Live)" "").indexOf
        "track:Song" <
      (build_youtube_search_queries "A" "Song feat. X (Live)" "").indexOf
        "track:Song feat. X" := by
  constructor
  · decide
  · decide

/-! ## Claim C3 -/

/-- Claim C3 counterexample: cleaning the video title
"BTS - Dynamite (Official MV) [Lyrics]" does NOT yield
("BTS", "Dynamite"): no noise pattern matches "(Official MV)" as a whole
(only the bare "MV" token and "[Lyrics]" are stripped), so the cleaned
title keeps the "(Official )" parenthetical. -/
theorem c3_counterexample :
    clean_youtube_title noDetect noDecode
        "BTS - Dynamite (Official MV) [Lyrics]" ≠ ("BTS", "Dynamite") ∧
    clean_youtube_title noDetect noDecode
        "BTS - Dynamite (Official MV) [Lyrics]" =
      ("BTS", "Dynamite (Official )") := by
  constructor
  · decide
  · decide

/-- Claim C3 (amended): for any detector/decoder oracles under which the
pure-ASCII input passes through the mojibake repair unchanged, cleaning
"BTS - Dynamite (Official MV) [Lyrics]" yields artist "BTS" and title
"Dynamite (Official )": the "[Lyrics]" marker and the bare "MV" token are
stripped by the noise patterns, the "(Official )" parenthetical survives,
and the "Artist - Title" separator split still succeeds. -/
theorem c3_theorem (detect : List Nat → Option String × ℚ)
    (dec : String → List Nat → Option String)
    (h : fix_mojibake detect dec "BTS - Dynamite (Official MV) [Lyrics]" =
      "BTS - Dynamite (Official MV) [Lyrics]") :
    clean_youtube_title detect dec "BTS - Dynamite (Official MV) [Lyrics]" =
      ("BTS", "Dynamite (Official )") := by
  unfold clean_youtube_title
  rw [h]
  decide

theorem c3_witness :
    fix_mojibake noDetect noDecode "BTS - Dynamite (Official MV) [Lyrics]" =
      "BTS - Dynamite (Official MV) [Lyrics]" ∧
    clean_youtube_title noDetect noDecode
        "BTS - Dynamite (Official MV) [Lyrics]" =
      ("BTS", "Dynamite (Official )") :=
  ⟨by decide, c3_theorem noDetect noDecode (by decide)⟩

/-! ## Claim C6 -/

/-- Claim C6: any string containing a character outside the single-byte
range 0x00–0xFF passes through `fix_mojibake` unchanged (already-valid
Unicode), and the empty string and the literal "None" likewise pass
through unchanged, for every detector and decoder oracle. -/
theorem c6_theorem :
    (∀ detect dec text, (∃ c ∈ text.data, 255 < c.toNat) →
      fix_mojibake detect dec text = text) ∧
    (∀ detect dec, fix_mojibake detect dec "" = "" ∧
      fix_mojibake detect dec "None" = "None") := by
  constructor
  · intro detect dec text h
    unfold fix_mojibake
    by_cases h1 : text = "" ∨ text = "None"
    · rw [if_pos h1]
    · have h2 : text.data.any (fun c => 255 < c.toNat) = true := by
        obtain ⟨c, hc, hgt⟩ := h
        exact List.any_eq_true.mpr ⟨c, hc, by simpa using hgt⟩
      rw [if_neg h1, if_pos h2]
  · intro detect dec
    constructor
    · unfold fix_mojibake
      rw [if_pos (Or.inl rfl)]
    · unfold fix_mojibake
      rw [if_pos (Or.inr rfl)]

theorem c6_witness :
    (∃ c ∈ ("한" : String).data, 255 < c.toNat) ∧
    fix_mojibake noDetect noDecode "한" = "한" :=
  ⟨by decide, c6_theorem.1 noDetect noDecode "한" (by decide)⟩

/-! ## Claim C7 -/

/-- Claim C7: `fix_mojibake` is total by construction (a Lean function,
never an exception) and fail-soft: on the mojibake path, when decoding
with the chosen encoding fails, the result is the fallback `"cp949"`
decode when that succeeds and the original text unchanged when the
fallback also fails — captured by `Option.getD`. -/
theorem c7_theorem (detect : List Nat → Option String × ℚ)
    (dec : String → List Nat → Option String) (text : String)
    (h1 : text ≠ "") (h2 : text ≠ "None")
    (h3 : ∀ c ∈ text.data, c.toNat ≤ 255)
    (h4 : dec (chosenEncoding (detect (latin1Bytes text))) (latin1Bytes text) =
      none) :
    fix_mojibake detect dec text = (dec "cp949" (latin1Bytes text)).getD text := by
  unfold fix_mojibake
  rw [if_neg (by simp [h1, h2])]
  have hany : ¬ text.data.any (fun c => 255 < c.toNat) = true := by
    intro hcon
    obtain ⟨c, hc, hgt⟩ := List.any_eq_true.mp hcon
    have hgt' : 255 < c.toNat := by simpa using hgt
    exact absurd hgt' (Nat.not_lt.mpr (h3 c hc))
  rw [if_neg hany, h4]
  cases h5 : dec "cp949" (latin1Bytes text) with
  | none => rfl
  | some s => rfl

theorem c7_witness :
    ((("abc" : String) ≠ "") ∧ (("abc" : String) ≠ "None") ∧
      (∀ c ∈ ("abc" : String).data, c.toNat ≤ 255) ∧
      noDecode (chosenEncoding (noDetect (latin1Bytes "abc")))
        (latin1Bytes "abc") = none) ∧
    fix_mojibake noDetect noDecode "abc" =
      (noDecode "cp949" (latin1Bytes "abc")).getD "abc" :=
  ⟨⟨by decide, by decide, by decide, rfl⟩,
   c7_theorem noDetect noDecode "abc" (by decide) (by decide) (by decide) rfl⟩

/-! ## main.py : scan_music_files (per-file normalization) -/

/-- The supported audio extensions of `scan_music_files`. -/
def audioExts : List String :=
  [".mp3", ".flac", ".ogg", ".opus", ".wma", ".wav",
   ".m4a", ".aac", ".aiff", ".dsf", ".wv"]

def lowerStr (s : String) : String := ⟨s.data.map Char.toLower⟩

/-- Python `s.lower().endswith(tuple_of_exts)`. -/
def endsWithOneOf (s : String) (exts : List String) : Bool :=
  exts.any (fun e => e.data.isSuffixOf s.data)

/-- `os.path.splitext(file)[0]` for a bare file name: the extension
begins at the last dot, unless every character before that dot is itself
a dot (then there is no extension). -/
def splitextRoot (name : List Char) : List Char :=
  let ridx := name.reverse.indexOf '.'
  if ridx < name.length then
    let di := name.length - 1 - ridx
    if (name.take di).any (fun c => !(c == '.')) then name.take di else name
  else name

/-- The filename separators tried by the metadata fallback of
`scan_music_files`, in source order. -/
def fallbackSeps : List (List Char) :=
  [[' ', '-', ' '], [' ', '—', ' '], [' ', '–', ' '], ['_', '-', '_']]

/-- The `for sep in [...]` loop with `break`: split at the first listed
separator that occurs in the basename. -/
def firstSepSplit (l : List Char) : List (List Char) → Option (List Char × List Char)
  | [] => none
  | sep :: rest =>
    match splitFirst sep l with
    | some pq => some pq
    | none => firstSepSplit l rest

/-- The character class `[\.\-\s]` of the track-number prefix pattern. -/
def trackNumJunk (c : Char) : Bool := c == '.' || c == '-' || isPySpace c

/-- `^\d{1,3}[\.\-\s]+\s*` (a leading track number such as "01 ",
"01. ", "01 - "). -/
def trackNumPat : RE :=
  reCat [RE.cls Char.isDigit,
         RE.opt (reCat [RE.cls Char.isDigit, RE.opt (RE.cls Char.isDigit)]),
         RE.cls trackNumJunk, RE.star (RE.cls trackNumJunk), wsStar]

/-- One iteration of `scan_music_files` (main.py lines 103–146) for a
single directory entry, with the file system and TinyTag as inputs:
`tag = none` models a raised tag-read exception, `tag = some (t, a)` the
read `(tag.title, tag.artist)` fields (each possibly `None`).  Returns
`none` when the file is skipped (hidden or unsupported extension), else
the yielded `(artist, title, display)` triple. -/
def scan_music_files_entry (detect : List Nat → Option String × ℚ)
    (dec : String → List Nat → Option String)
    (tag : Option (Option String × Option String)) (file : String) :
    Option (String × String × String) :=
  if file.data.head? = some '.' then none
  else if ¬ endsWithOneOf (lowerStr file) audioExts then none
  else
    let tt := match tag with
      | some p => (fix_mojibake detect dec (p.1.getD ""),
                   fix_mojibake detect dec (p.2.getD ""))
      | none => ("", "")
    if tt.1 = "" ∨ tt.2 = "" ∨ tt.2 = "Unknown" then
      let basename := splitextRoot file.data
      let part := firstSepSplit basename fallbackSeps
      let artist2 := match part with
        | some pq => if tt.2 = "" ∨ tt.2 = "Unknown" then pyStripStr ⟨pq.1⟩ else tt.2
        | none => tt.2
      let title2 := match part with
        | some pq => if tt.1 = "" then pyStripStr ⟨pq.2⟩ else tt.1
        | none => tt.1
      let title3 := if title2 = "" then pyStripStr ⟨basename⟩ else title2
      let title4 := pyStripStr ⟨reSubStart trackNumPat title3.data⟩
      let artist3 := if artist2 = "" then "Unknown" else artist2
      some (artist3, title4, artist3 ++ " - " ++ title4)
    else
      some (tt.2, tt.1, tt.2 ++ " - " ++ tt.1)

/-! ## retry_failed.py : the search gate of the per-line loop -/

/-- Lines 171–182 of `retry_failed.main`: a parsed line reaches
`search_with_fallback` only when its title is non-empty (otherwise it is
appended to `still_failed` and skipped). -/
def retry_line_search (line : String) : Option (String × String) :=
  if (parse_song_line line).2 = "" then none else some (parse_song_line line)

/-! ## Claim C8 -/

/-- Claim C8 counterexample: a file named " .mp3" (no metadata, basename
" ") survives the hidden-file and extension filters but normalizes to an
EMPTY title: `scan_music_files` yields ("Unknown", "", "Unknown - ") and
`_main_logic` passes it straight to `search_with_fallback` with no
title-non-empty guard — refuting the invariant that a song reaching the
search stage always has a non-empty title. -/
theorem c8_counterexample :
    scan_music_files_entry noDetect noDecode none " .mp3" =
      some ("Unknown", "", "Unknown - ") := by
  decide

/-- Claim C8 (amended): in the retry path the explicit guard means every
entry submitted to search has a non-empty title; in the local-scan path
an empty-title entry can reach `search_with_fallback` (see the
counterexample), but the query builder then generates NO queries at all,
so no catalog query is ever issued with an empty title. -/
theorem c8_amended_theorem :
    (∀ artist : String, build_search_queries artist "" "" = []) ∧
    (∀ line a t : String, retry_line_search line = some (a, t) → t ≠ "") := by
  constructor
  · intro artist
    have h1 : remove_brackets "" = "" := by decide
    have h2 : remove_feat "" = none := by decide
    simp [build_search_queries, h1, h2]
  · intro line a t h
    unfold retry_line_search at h
    split at h
    · exact absurd h (by simp)
    · next hcond =>
      injection h with h'
      rw [h'] at hcond
      simpa using hcond

theorem c8_witness :
    retry_line_search "A - B" = some ("A", "B") ∧ ("B" : String) ≠ "" :=
  ⟨by decide, c8_amended_theorem.2 "A - B" "A" "B" (by decide)⟩

/-! ## main.py / youtube_import.py : the accumulation loops (Claim C1) -/

/-- The per-scan accumulation state of `_main_logic` (main.py lines
207–244): `track_ids` (the accepted-ID list), `seen_ids` (the dedup set,
kept as a list), and the matched / failed counters implied by the
per-item match / no_match reporting. -/
structure ScanState where
  trackIds : List String
  seenIds : List String
  matchedCount : Nat
  failedCount : Nat
deriving DecidableEq

/-- One iteration of the `_main_logic` scan loop on the search outcome of
one entry: a hit is always reported matched, but appended to the
accepted-ID list (and the seen set) only when not seen before. -/
def mainStep (s : ScanState) (res : Option String) : ScanState :=
  match res with
  | some tid =>
    if s.seenIds.contains tid then
      { s with matchedCount := s.matchedCount + 1 }
    else
      { trackIds := s.trackIds ++ [tid], seenIds := s.seenIds ++ [tid],
        matchedCount := s.matchedCount + 1, failedCount := s.failedCount }
  | none => { s with failedCount := s.failedCount + 1 }

def mainScan (results : List (Option String)) : ScanState :=
  results.foldl mainStep ⟨[], [], 0, 0⟩

/-- The accumulation of `youtube_import.main` (lines 273–295): every hit
is appended to `track_ids` unconditionally — there is no seen-set. -/
def ytScanIds (results : List (Option String)) : List String :=
  results.foldl (fun ids r =>
    match r with
    | some tid => ids ++ [tid]
    | none => ids) []

theorem mainStep_inv (s : ScanState) (r : Option String)
    (h : s.trackIds.Nodup ∧ s.seenIds = s.trackIds) :
    (mainStep s r).trackIds.Nodup ∧
      (mainStep s r).seenIds = (mainStep s r).trackIds := by
  obtain ⟨hn, he⟩ := h
  cases r with
  | none => exact ⟨hn, he⟩
  | some tid =>
    simp only [mainStep]
    by_cases hc : s.seenIds.contains tid = true
    · rw [if_pos hc]
      exact ⟨hn, he⟩
    · rw [if_neg hc]
      refine ⟨?_, by rw [he]⟩
      have hnm : tid ∉ s.trackIds := by
        rw [← he]
        simpa [List.contains, List.elem_eq_mem] using hc
      exact (List.nodup_append).mpr ⟨hn, List.nodup_singleton tid,
        fun x hx hx' => by
          rw [List.mem_singleton] at hx'
          subst hx'
          exact hnm hx⟩

theorem foldl_mainStep_inv : ∀ (rs : List (Option String)) (s : ScanState),
    (s.trackIds.Nodup ∧ s.seenIds = s.trackIds) →
    ((rs.foldl mainStep s).trackIds.Nodup ∧
      (rs.foldl mainStep s).seenIds = (rs.foldl mainStep s).trackIds) := by
  intro rs
  induction rs with
  | nil => intro s h; exact h
  | cons r rest ih =>
    intro s h
    exact ih (mainStep s r) (mainStep_inv s r h)

theorem foldl_mainStep_seen (tid : String) : ∀ (k : Nat) (s : ScanState),
    s.seenIds.contains tid = true →
    (List.replicate k (some tid)).foldl mainStep s =
      { s with matchedCount := s.matchedCount + k } := by
  intro k
  induction k with
  | zero => intro s _; rfl
  | succ k ih =>
    intro s h
    rw [List.replicate_succ, List.foldl_cons]
    have hstep : mainStep s (some tid) =
        { s with matchedCount := s.matchedCount + 1 } := by
      simp only [mainStep]
      rw [if_pos h]
    rw [hstep, ih { s with matchedCount := s.matchedCount + 1 } h]
    have e : s.matchedCount + 1 + k = s.matchedCount + (k + 1) := by omega
    rw [e]

/-- Claim C1 (amended): in the local-file scan `_main_logic`, the
accepted-ID list never holds a catalogId twice (it is duplicate-free for
every sequence of search outcomes), and for N entries that all resolve to
the same catalogId the accepted list is exactly `[tid]` — the ID once —
while all N entries are still reported matched.  (The YouTube import loop
has no such deduplication; see the counterexample.) -/
theorem c1_theorem :
    (∀ results : List (Option String), (mainScan results).trackIds.Nodup) ∧
    (∀ (tid : String) (n : Nat), 0 < n →
      (mainScan (List.replicate n (some tid))).trackIds = [tid] ∧
      (mainScan (List.replicate n (some tid))).matchedCount = n) := by
  constructor
  · intro results
    exact (foldl_mainStep_inv results ⟨[], [], 0, 0⟩ ⟨List.nodup_nil, rfl⟩).1
  · intro tid n hn
    obtain ⟨k, rfl⟩ : ∃ k, n = k + 1 := ⟨n - 1, by omega⟩
    have h1 : mainStep ⟨[], [], 0, 0⟩ (some tid) =
        ⟨[tid], [tid], 1, 0⟩ := by
      simp only [mainStep]
      rw [if_neg (by simp [List.contains])]
      rfl
    have h2 : ([tid] : List String).contains tid = true := by
      simp [List.contains]
    unfold mainScan
    rw [List.replicate_succ, List.foldl_cons, h1,
      foldl_mainStep_seen tid k ⟨[tid], [tid], 1, 0⟩ h2]
    refine ⟨rfl, ?_⟩
    show 1 + k = k + 1
    omega

theorem c1_witness :
    (0 < 3) ∧ (mainScan (List.replicate 3 (some "X"))).trackIds = ["X"] ∧
    (mainScan (List.replicate 3 (some "X"))).matchedCount = 3 :=
  ⟨by decide, (c1_theorem.2 "X" 3 (by decide)).1, (c1_theorem.2 "X" 3 (by decide)).2⟩

/-- Claim C1 counterexample: the YouTube import accumulation does not
deduplicate — two entries resolving to the same catalogId "A" leave it
TWICE in the list submitted to the playlist-add call, not exactly once. -/
theorem c1_counterexample :
    ytScanIds [some "A", some "A"] = ["A", "A"] ∧
    (ytScanIds [some "A", some "A"]).count "A" = 2 := by
  constructor
  · rfl
  · rfl

/-! ## remove_duplicates.py : the duplicate detector (Claim C4) -/

/-- One occurrence row of `get_playlist_tracks_with_positions` (the
fields read by `_remove_duplicates`). -/
structure PlaylistOccurrence where
  id : String
  uri : String
  name : String
  artist : String
  pos : Nat
deriving DecidableEq

/-- The sort key `lambda x: x["pos"]`. -/
def posLeR (a b : PlaylistOccurrence) : Prop := a.pos ≤ b.pos

instance : DecidableRel posLeR := fun a b => Nat.decLe a.pos b.pos

instance : IsTotal PlaylistOccurrence posLeR := ⟨fun a b => Nat.le_total a.pos b.pos⟩

instance : IsTrans PlaylistOccurrence posLeR := ⟨fun _ _ _ h h' => Nat.le_trans h h'⟩

/-- `occurrences.sort(key=lambda x: x["pos"])`: Python's sort is stable,
so the stable insertion sort produces the identical list. -/
def sortByPos (g : List PlaylistOccurrence) : List PlaylistOccurrence :=
  List.insertionSort posLeR g

/-- `track_map = defaultdict(list); for t in tracks: track_map[t["id"]].append(t)`
— a Python dict preserves first-insertion key order, modelled as an
association list extended at the back. -/
def insertOcc (m : List (String × List PlaylistOccurrence))
    (t : PlaylistOccurrence) : List (String × List PlaylistOccurrence) :=
  match m with
  | [] => [(t.id, [t])]
  | (k, g) :: rest =>
    if k = t.id then (k, g ++ [t]) :: rest else (k, g) :: insertOcc rest t

def groupByIds (occs : List PlaylistOccurrence) :
    List (String × List PlaylistOccurrence) :=
  occs.foldl insertOcc []

/-- One entry of `duplicates_to_remove`: `{"uri": ..., "positions": [...]}`. -/
structure RemovalEntry where
  uri : String
  positions : List Nat
deriving DecidableEq

/-- One entry of `duplicate_details`. -/
structure DupDetail where
  id : String
  uri : String
  name : String
  artist : String
  position : Nat
  total_occurrences : Nat
deriving DecidableEq

/-- The removal entries contributed by one catalogId group: sort by
position, keep the first, mark every other member with its own position. -/
def groupRemovals (g : List PlaylistOccurrence) : List RemovalEntry :=
  if 1 < g.length then
    ((sortByPos g).drop 1).map (fun d => ⟨d.uri, [d.pos]⟩)
  else []

/-- The detail entries contributed by one catalogId group. -/
def groupDetails (g : List PlaylistOccurrence) : List DupDetail :=
  if 1 < g.length then
    ((sortByPos g).drop 1).map
      (fun d => ⟨d.id, d.uri, d.name, d.artist, d.pos, g.length⟩)
  else []

/-- The duplicate-identification phase of `_remove_duplicates`
(lines 73–99): `(duplicates_to_remove, duplicate_details)`. -/
def findDuplicates (occs : List PlaylistOccurrence) :
    List RemovalEntry × List DupDetail :=
  ((groupByIds occs).flatMap (fun p => groupRemovals p.2),
   (groupByIds occs).flatMap (fun p => groupDetails p.2))

/-- The occurrence list of the spec's worked example
`[{id:A,pos:0},{id:B,pos:1},{id:A,pos:2},{id:A,pos:5}]`. -/
def c4occs : List PlaylistOccurrence :=
  [⟨"A", "uriA", "nA", "arA", 0⟩, ⟨"B", "uriB", "nB", "arB", 1⟩,
   ⟨"A", "uriA", "nA", "arA", 2⟩, ⟨"A", "uriA", "nA", "arA", 5⟩]

/-- The catalogId-"A" group produced by `groupByIds c4occs`. -/
def c4grpA : List PlaylistOccurrence :=
  [⟨"A", "uriA", "nA", "arA", 0⟩, ⟨"A", "uriA", "nA", "arA", 2⟩,
   ⟨"A", "uriA", "nA", "arA", 5⟩]

/-- Claim C4: in every catalogId group with more than one member the
detector keeps one member of minimal position and marks exactly all the
other members for removal, each tagged with its own position; groups of
size 1 contribute nothing; and on the spec's example the removal list is
exactly [{uriA,[2]},{uriA,[5]}] — length 2, B untouched. -/
theorem c4_theorem :
    (∀ (occs : List PlaylistOccurrence) (gid : String)
        (g : List PlaylistOccurrence), (gid, g) ∈ groupByIds occs →
      (1 < g.length →
        ∃ keep rest, g.Perm (keep :: rest) ∧ (∀ o ∈ g, keep.pos ≤ o.pos) ∧
          groupRemovals g = rest.map (fun d => ⟨d.uri, [d.pos]⟩)) ∧
      (g.length = 1 → groupRemovals g = [])) ∧
    (findDuplicates c4occs).1 =
      [⟨"uriA", [2]⟩, ⟨"uriA", [5]⟩] ∧
    (findDuplicates c4occs).1.length = 2 ∧
    (∀ e ∈ (findDuplicates c4occs).1, e.uri ≠ "uriB") := by
  refine ⟨?_, by decide, by decide, by decide⟩
  intro occs gid g _
  constructor
  · intro hlen
    have hperm : (sortByPos g).Perm g := List.perm_insertionSort posLeR g
    have hsorted : List.Sorted posLeR (sortByPos g) :=
      List.sorted_insertionSort posLeR g
    have hlen' : (sortByPos g).length = g.length := hperm.length_eq
    cases hs : sortByPos g with
    | nil =>
      rw [hs] at hlen'
      simp at hlen'
      omega
    | cons keep rest =>
      refine ⟨keep, rest, ?_, ?_, ?_⟩
      · rw [← hs]
        exact hperm.symm
      · intro o ho
        have ho' : o ∈ keep :: rest := by
          rw [← hs]
          exact hperm.mem_iff.mpr ho
        rcases List.mem_cons.mp ho' with h | h
        · rw [h]
        · rw [hs] at hsorted
          exact List.rel_of_sorted_cons hsorted o h
      · unfold groupRemovals
        rw [if_pos hlen, hs]
        rfl
  · intro hlen
    unfold groupRemovals
    rw [if_neg (by omega)]

theorem c4_witness :
    ((("A" : String), c4grpA) ∈ groupByIds c4occs ∧ 1 < c4grpA.length) ∧
    (∃ keep rest, c4grpA.Perm (keep :: rest) ∧
      (∀ o ∈ c4grpA, keep.pos ≤ o.pos) ∧
      groupRemovals c4grpA = rest.map (fun d => ⟨d.uri, [d.pos]⟩)) :=
  ⟨⟨by decide, by decide⟩,
   (c4_theorem.1 c4occs "A" c4grpA (by decide)).1 (by decide)⟩

/-! ## remove_duplicates.py : backup-before-removal (Claim C5) -/

/-- The snapshot written by `_save_backup` (its `backup_data` dict; the
timestamp string is an input because `datetime.now()` is external). -/
structure BackupRecord where
  playlist_id : String
  playlist_name : String
  timestamp : String
  removed_count : Nat
  tracks : List DupDetail
deriving DecidableEq

/-- The externally visible effects of `_remove_duplicates`, in program
order: console/GUI messages (payload abstracted), the backup-file write,
and the destructive `client.remove_tracks` call. -/
inductive Effect where
  | log : Effect
  | saveBackup : BackupRecord → Effect
  | removeTracks : String → List RemovalEntry → Effect
deriving DecidableEq

/-- The effect trace of `_remove_duplicates(client, playlist_id, gui,
scan_only)` (lines 56–151), with the fetched occurrence list and the
backup timestamp as inputs: log the fetch, stop after a log when no
duplicates were found or in scan-only mode, and otherwise log, save the
backup, log, remove, log — in exactly this order. -/
def remove_duplicates_trace (now pid pname : String)
    (tracks : List PlaylistOccurrence) (scanOnly : Bool) : List Effect :=
  Effect.log ::
  (if (findDuplicates tracks).1.length = 0 then [Effect.log]
   else if scanOnly then [Effect.log]
   else
    [Effect.log,
     Effect.saveBackup ⟨pid, pname, now, (findDuplicates tracks).2.length,
       (findDuplicates tracks).2⟩,
     Effect.log,
     Effect.removeTracks pid (findDuplicates tracks).1,
     Effect.log])

theorem groupLens (g : List PlaylistOccurrence) :
    (groupDetails g).length = (groupRemovals g).length := by
  unfold groupDetails groupRemovals
  split
  · simp
  · rfl

theorem findDuplicates_lengths (occs : List PlaylistOccurrence) :
    (findDuplicates occs).2.length = (findDuplicates occs).1.length := by
  unfold findDuplicates
  induction groupByIds occs with
  | nil => rfl
  | cons p ps ih =>
    simp only [List.flatMap_cons, List.length_append, ih, groupLens]

/-- Claim C5: in a run that is not scan-only and finds at least one
duplicate, every `removeTracks` effect in the trace is strictly preceded
by a `saveBackup` effect whose record carries the playlist id and name,
the timestamp, a removed-count equal to the number of occurrences marked
for removal, and the full detail list — and such a `removeTracks` effect
does occur.  The removal call is never reached without the snapshot. -/
theorem c5_theorem (now pid pname : String) (tracks : List PlaylistOccurrence)
    (h : 0 < (findDuplicates tracks).1.length) :
    (∀ j : Nat, (remove_duplicates_trace now pid pname tracks false)[j]? =
        some (Effect.removeTracks pid (findDuplicates tracks).1) →
      ∃ i : Nat, i < j ∧ (remove_duplicates_trace now pid pname tracks false)[i]? =
        some (Effect.saveBackup ⟨pid, pname, now,
          (findDuplicates tracks).1.length, (findDuplicates tracks).2⟩)) ∧
    (∃ j : Nat, (remove_duplicates_trace now pid pname tracks false)[j]? =
      some (Effect.removeTracks pid (findDuplicates tracks).1)) := by
  have hlen := findDuplicates_lengths tracks
  have hne : ¬ (findDuplicates tracks).1.length = 0 := by omega
  have htr : remove_duplicates_trace now pid pname tracks false =
      [Effect.log, Effect.log,
       Effect.saveBackup ⟨pid, pname, now, (findDuplicates tracks).2.length,
         (findDuplicates tracks).2⟩,
       Effect.log, Effect.removeTracks pid (findDuplicates tracks).1,
       Effect.log] := by
    unfold remove_duplicates_trace
    rw [if_neg hne]
    rfl
  constructor
  · intro j hj
    rw [htr] at hj
    match j with
    | 0 => simp at hj
    | 1 => simp at hj
    | 2 => simp at hj
    | 3 => simp at hj
    | 4 =>
      refine ⟨2, by omega, ?_⟩
      rw [htr]
      simp [hlen]
    | 5 => simp at hj
    | j + 6 => simp at hj
  · refine ⟨4, ?_⟩
    rw [htr]
    simp

/-- Two occurrences of the same track, used to discharge the C5
hypothesis at a concrete input. -/
def c5occs : List PlaylistOccurrence :=
  [⟨"A", "uA", "n", "ar", 0⟩, ⟨"A", "uA", "n", "ar", 1⟩]

theorem c5_witness :
    0 < (findDuplicates c5occs).1.length ∧
    ((∀ j : Nat, (remove_duplicates_trace "ts" "P" "N" c5occs false)[j]? =
        some (Effect.removeTracks "P" (findDuplicates c5occs).1) →
      ∃ i : Nat, i < j ∧ (remove_duplicates_trace "ts" "P" "N" c5occs false)[i]? =
        some (Effect.saveBackup ⟨"P", "N", "ts",
          (findDuplicates c5occs).1.length, (findDuplicates c5occs).2⟩)) ∧
    (∃ j : Nat, (remove_duplicates_trace "ts" "P" "N" c5occs false)[j]? =
      some (Effect.removeTracks "P" (findDuplicates c5occs).1))) :=
  ⟨by decide, c5_theorem "ts" "P" "N" c5occs (by decide)⟩

theorem c9_witness :
    (wsNormStr "BTS" ≠ "" ∧ wsNormStr "Dynamite" ≠ "" ∧
      (∀ i < (("BTS" : String) ++ " - " ++ "Dynamite").data.length,
        sepDash.isPrefixOf
            ((("BTS" : String) ++ " - " ++ "Dynamite").data.drop i) = true →
        i = ("BTS" : String).data.length)) ∧
    (parse_song_line (("BTS" : String) ++ " - " ++ "Dynamite") =
        (wsNormStr "BTS", wsNormStr "Dynamite") ∧
      wsNormStr "BTS" ++ " - " ++ wsNormStr "Dynamite" =
        wsNormStr (("BTS" : String) ++ " - " ++ "Dynamite")) :=
  ⟨⟨by decide, by decide, by decide⟩,
   c9_theorem "BTS" "Dynamite" (by decide) (by decide) (by decide)⟩
